import Mathlib

/-!
# Verification of `subjectid-rs`

A shallow embedding of the `subjectid` crate: the `Atomic` subject-identifier
union (`src/single.rs`), the `Id` union (`src/lib.rs`), the E.164
`PhoneNumber` value type (`src/e164.rs`), the crate error type
(`src/error.rs`), and the composite `SubjectId` (Atomic | Aliases) resolver,
which is referenced by `src/single.rs` but whose definition is not among the
given sources and is therefore modelled from the specification.

The wire representation is modelled by a small JSON value type.  Objects are
association lists, preserving entry order and possible duplicate keys, which
is how a streaming deserializer sees them.  The serde derive semantics
embedded here for an internally tagged enum (`#[serde(tag = "format")]`) on
the JSON object representation:
  * serialization emits an object whose first member is the tag followed by
    the variant fields in declaration order;
  * deserialization extracts the tag member (error when it is absent,
    duplicated, or not a string), then deserializes the variant struct from
    the remaining members: every required field must appear exactly once with
    a string value, while members with unrecognized names are ignored
    (the derive is not annotated with `deny_unknown_fields`).
-/

/-- A JSON-like wire value (RFC 8259 object model, restricted to the kinds
the crate's wire format can contain).  Objects keep entry order and may carry
duplicate keys, as a streaming decoder would observe them. -/
inductive Json where
  | null : Json
  | bool : Bool → Json
  | str : String → Json
  | arr : List Json → Json
  | obj : List (String × Json) → Json

/-- All values bound to key `k` in an object's member list, in order. -/
def Json.fieldValues (k : String) (fields : List (String × Json)) : List Json :=
  (fields.filter (fun kv => kv.1 = k)).map (fun kv => kv.2)

/-- Deserializing a Rust `String` field from a JSON value: only a JSON string
is accepted (serde `invalid type` error otherwise). -/
def Json.getStr : Json → Except String String
  | .str s => .ok s
  | _ => .error "invalid type: expected a string"

/-- serde struct-field extraction: the field must be present exactly once
(missing-field and duplicate-field errors otherwise) and hold a string. -/
def Json.reqStrField (k : String) (fields : List (String × Json)) :
    Except String String :=
  match Json.fieldValues k fields with
  | [] => .error ("missing field " ++ k)
  | [v] => v.getStr
  | _ :: _ :: _ => .error ("duplicate field " ++ k)

/-- serde tag extraction for an internally tagged enum: the tag member must
be present exactly once and hold a string. -/
def Json.extractTag (tagName : String) (fields : List (String × Json)) :
    Except String String :=
  match Json.fieldValues tagName fields with
  | [] => .error ("missing field " ++ tagName)
  | [v] => v.getStr
  | _ :: _ :: _ => .error ("duplicate field " ++ tagName)

/-- The members that serde buffers as variant content: every member whose key
is not the tag, in order. -/
def Json.contentOf (tagName : String) (fields : List (String × Json)) :
    List (String × Json) :=
  fields.filter (fun kv => ¬ (kv.1 = tagName))

/-- Type `Atomic` from `src/single.rs`: the seven atomic subject identifier
formats, each holding its declared `String` fields. -/
inductive Atomic where
  | Account (uri : String)
  | Email (email : String)
  | IssuerSubject (issuer : String) (subject : String)
  | Opaque (id : String)
  | PhoneNumber (phone_number : String)
  | Did (url : String)
  | Uri (uri : String)
deriving DecidableEq

/-- Modelled from the spec: the registry format-name constants referenced by
`src/single.rs` as `SubjectId::FORMAT_*` (their defining module is not among
the given sources; the values are the section 3 registry table, which agrees
with the identical constants `Id::FORMAT_*` in `src/lib.rs`). -/
def SubjectId.FORMAT_ACCOUNT : String := "account"

/-- Modelled from the spec: see `SubjectId.FORMAT_ACCOUNT`. -/
def SubjectId.FORMAT_EMAIL : String := "email"

/-- Modelled from the spec: see `SubjectId.FORMAT_ACCOUNT`. -/
def SubjectId.FORMAT_ISSUER_SUBJECT : String := "iss_sub"

/-- Modelled from the spec: see `SubjectId.FORMAT_ACCOUNT`. -/
def SubjectId.FORMAT_OPAQUE : String := "opaque"

/-- Modelled from the spec: see `SubjectId.FORMAT_ACCOUNT`. -/
def SubjectId.FORMAT_PHONE_NUMBER : String := "phone_number"

/-- Modelled from the spec: see `SubjectId.FORMAT_ACCOUNT`. -/
def SubjectId.FORMAT_DID : String := "did"

/-- Modelled from the spec: see `SubjectId.FORMAT_ACCOUNT`. -/
def SubjectId.FORMAT_URI : String := "uri"

/-- Modelled from the spec: the reserved discriminator of the composite
Aliases format (section 3 table). -/
def SubjectId.FORMAT_ALIASES : String := "aliases"

/-- Method `Atomic::format` from `src/single.rs`: the registry name of the populated
variant. -/
def Atomic.format : Atomic → String
  | .Account _ => SubjectId.FORMAT_ACCOUNT
  | .Email _ => SubjectId.FORMAT_EMAIL
  | .IssuerSubject _ _ => SubjectId.FORMAT_ISSUER_SUBJECT
  | .Opaque _ => SubjectId.FORMAT_OPAQUE
  | .PhoneNumber _ => SubjectId.FORMAT_PHONE_NUMBER
  | .Did _ => SubjectId.FORMAT_DID
  | .Uri _ => SubjectId.FORMAT_URI

/-- Serialization of `Atomic` as derived by
`#[derive(Serialize)] #[serde(rename_all = "snake_case")] #[serde(tag = "format")]`
in `src/single.rs`: an object whose first member is the discriminator
`"format"` with the variant's snake_case name (`iss_sub` by explicit rename),
followed by the variant's fields in declaration order, flattened into the
same object. -/
def Atomic.serialize : Atomic → Json
  | .Account uri => .obj [("format", .str "account"), ("uri", .str uri)]
  | .Email email => .obj [("format", .str "email"), ("email", .str email)]
  | .IssuerSubject issuer subject =>
      .obj [("format", .str "iss_sub"), ("issuer", .str issuer),
            ("subject", .str subject)]
  | .Opaque id => .obj [("format", .str "opaque"), ("id", .str id)]
  | .PhoneNumber phone_number =>
      .obj [("format", .str "phone_number"), ("phone_number", .str phone_number)]
  | .Did url => .obj [("format", .str "did"), ("url", .str url)]
  | .Uri uri => .obj [("format", .str "uri"), ("uri", .str uri)]

/-- Deserialization of `Atomic` as derived in `src/single.rs` (internally
tagged on `"format"`), on the JSON object representation: extract the tag,
dispatch on its value, then read each declared field from the remaining
members; unknown members are ignored (no `deny_unknown_fields`). -/
def Atomic.deserialize (j : Json) : Except String Atomic :=
  match j with
  | .obj fields => do
    let tag ← Json.extractTag "format" fields
    let content := Json.contentOf "format" fields
    match tag with
    | "account" => do
        let uri ← Json.reqStrField "uri" content
        pure (.Account uri)
    | "email" => do
        let email ← Json.reqStrField "email" content
        pure (.Email email)
    | "iss_sub" => do
        let issuer ← Json.reqStrField "issuer" content
        let subject ← Json.reqStrField "subject" content
        pure (.IssuerSubject issuer subject)
    | "opaque" => do
        let id ← Json.reqStrField "id" content
        pure (.Opaque id)
    | "phone_number" => do
        let phone_number ← Json.reqStrField "phone_number" content
        pure (.PhoneNumber phone_number)
    | "did" => do
        let url ← Json.reqStrField "url" content
        pure (.Did url)
    | "uri" => do
        let uri ← Json.reqStrField "uri" content
        pure (.Uri uri)
    | other => .error ("unknown variant " ++ other)
  | _ => .error "invalid type: expected a map"

/-- Type `Error` from `src/error.rs`: all errors used in the crate. -/
inductive Error where
  | InvalidPhoneNumber
deriving DecidableEq

/-- The `thiserror`-derived `Display` message of each `Error` variant
(`src/error.rs`), which is what `de::Error::custom` surfaces during
deserialization. -/
def Error.message : Error → String
  | .InvalidPhoneNumber => "invalid E.164 formatted phone number"

/-- Type `PhoneNumber` from `src/e164.rs`: an E.164 formatted telephone number,
stored pre-normalized (`number` carries the leading `+`). -/
structure PhoneNumber where
  number : String
deriving DecidableEq

/-- The code point ranges of the Unicode general category Nd (decimal
digit number), Unicode 15.0 — the character class the `regex` crate's `\d`
matches in its default Unicode mode. -/
def ndRanges : List (Nat × Nat) :=
  [(48, 57), (1632, 1641), (1776, 1785), (1984, 1993), (2406, 2415),
   (2534, 2543), (2662, 2671), (2790, 2799), (2918, 2927), (3046, 3055),
   (3174, 3183), (3302, 3311), (3430, 3439), (3558, 3567), (3664, 3673),
   (3792, 3801), (3872, 3881), (4160, 4169), (4240, 4249), (6112, 6121),
   (6160, 6169), (6470, 6479), (6608, 6617), (6784, 6793), (6800, 6809),
   (6992, 7001), (7088, 7097), (7232, 7241), (7248, 7257), (42528, 42537),
   (43216, 43225), (43264, 43273), (43472, 43481), (43504, 43513),
   (43600, 43609), (44016, 44025), (65296, 65305), (66720, 66729),
   (68912, 68921), (69734, 69743), (69872, 69881), (69942, 69951),
   (70096, 70105), (70384, 70393), (70736, 70745), (70864, 70873),
   (71248, 71257), (71360, 71369), (71472, 71481), (71904, 71913),
   (72016, 72025), (72784, 72793), (73040, 73049), (73120, 73129),
   (73552, 73561), (92768, 92777), (92864, 92873), (93008, 93017),
   (120782, 120831), (123200, 123209), (123632, 123641), (124144, 124153),
   (125264, 125273), (130032, 130041)]

/-- Whether a character is a Unicode decimal digit (`\p{Nd}`): the class
matched by `\d` in `RE_PHONE` (`src/e164.rs`), since the `regex` crate
compiles `\d` Unicode-aware by default. -/
def isNd (c : Char) : Bool :=
  ndRanges.any (fun r => r.1 ≤ c.toNat && c.toNat ≤ r.2)

/-- The capture-group submatch of `RE_PHONE` (`^\+?(\d{1,15})$`): the input
stripped of one optional leading `+`. -/
def stripPlus (cs : List Char) : List Char :=
  match cs with
  | '+' :: rest => rest
  | cs => cs

/-- Whether a character list is a valid `RE_PHONE` capture: 1 to 15 Unicode
decimal digits and nothing else. -/
def digitRun (cs : List Char) : Bool :=
  decide (1 ≤ cs.length) && decide (cs.length ≤ 15) && cs.all isNd

/-- Method `PhoneNumber::parse` from `src/e164.rs`: match against
`^\+?(\d{1,15})$`; on failure return `Error::InvalidPhoneNumber`; on success
store `"+"` prepended to the captured digits.  `FromStr` delegates to this. -/
def PhoneNumber.parse (s : String) : Except Error PhoneNumber :=
  let ds := stripPlus s.data
  if digitRun ds then .ok ⟨String.mk ('+' :: ds)⟩
  else .error Error.InvalidPhoneNumber

/-- The `Display` impl for `PhoneNumber` (`src/e164.rs`): writes the stored
canonical number. -/
def PhoneNumber.toString (p : PhoneNumber) : String := p.number

/-- Impl `Serialize` for `PhoneNumber` (`src/e164.rs`): `#[serde(transparent)]`
writes the stored string as a plain JSON string, with no wrapping object. -/
def PhoneNumber.serialize (p : PhoneNumber) : Json := .str p.number

/-- The manual `Deserialize` impl for `PhoneNumber` (`src/e164.rs`): the
visitor accepts a string, applies `PhoneNumber::parse`, and maps the crate
error through `de::Error::custom` (its `Display` message). -/
def PhoneNumber.deserialize (j : Json) : Except String PhoneNumber :=
  match j with
  | .str s =>
      match PhoneNumber.parse s with
      | .ok p => .ok p
      | .error e => .error e.message
  | _ => .error "invalid type: expected an E.164 formatted phone number"

namespace Lib

/-- Type `Id` from `src/lib.rs`: the same seven-format subject-identifier union,
defined independently of `Atomic`.  (Placed in the `Lib` namespace because
`Id` is taken by the Lean core library.) -/
inductive Id where
  | Account (uri : String)
  | Email (email : String)
  | IssuerSubject (issuer : String) (subject : String)
  | Opaque (id : String)
  | PhoneNumber (phone_number : String)
  | DID (url : String)
  | URI (uri : String)
deriving DecidableEq

/-- Constant `Id::FORMAT_ACCOUNT` from `src/lib.rs`. -/
def Id.FORMAT_ACCOUNT : String := "account"

/-- Constant `Id::FORMAT_EMAIL` from `src/lib.rs`. -/
def Id.FORMAT_EMAIL : String := "email"

/-- Constant `Id::FORMAT_ISSUER_SUBJECT` from `src/lib.rs`. -/
def Id.FORMAT_ISSUER_SUBJECT : String := "iss_sub"

/-- Constant `Id::FORMAT_OPAQUE` from `src/lib.rs`. -/
def Id.FORMAT_OPAQUE : String := "opaque"

/-- Constant `Id::FORMAT_PHONE_NUMBER` from `src/lib.rs`. -/
def Id.FORMAT_PHONE_NUMBER : String := "phone_number"

/-- Constant `Id::FORMAT_DID` from `src/lib.rs`. -/
def Id.FORMAT_DID : String := "did"

/-- Constant `Id::FORMAT_URI` from `src/lib.rs`. -/
def Id.FORMAT_URI : String := "uri"

/-- Method `Id::format` from `src/lib.rs`. -/
def Id.format : Id → String
  | .Account _ => Id.FORMAT_ACCOUNT
  | .Email _ => Id.FORMAT_EMAIL
  | .IssuerSubject _ _ => Id.FORMAT_ISSUER_SUBJECT
  | .Opaque _ => Id.FORMAT_OPAQUE
  | .PhoneNumber _ => Id.FORMAT_PHONE_NUMBER
  | .DID _ => Id.FORMAT_DID
  | .URI _ => Id.FORMAT_URI

/-- Serialization of `Id` as derived in `src/lib.rs`
(`#[serde(tag = "format")] #[serde(rename_all = "snake_case")]`, with
explicit renames `iss_sub`, `did`, `uri`): discriminator first, then the
variant fields in declaration order. -/
def Id.serialize : Id → Json
  | .Account uri => .obj [("format", .str "account"), ("uri", .str uri)]
  | .Email email => .obj [("format", .str "email"), ("email", .str email)]
  | .IssuerSubject issuer subject =>
      .obj [("format", .str "iss_sub"), ("issuer", .str issuer),
            ("subject", .str subject)]
  | .Opaque id => .obj [("format", .str "opaque"), ("id", .str id)]
  | .PhoneNumber phone_number =>
      .obj [("format", .str "phone_number"), ("phone_number", .str phone_number)]
  | .DID url => .obj [("format", .str "did"), ("url", .str url)]
  | .URI uri => .obj [("format", .str "uri"), ("uri", .str uri)]

/-- The evident variant-for-variant correspondence between `Id` (lib.rs) and
`Atomic` (single.rs), carrying the field values across unchanged. -/
def Id.toAtomic : Id → Atomic
  | .Account uri => .Account uri
  | .Email email => .Email email
  | .IssuerSubject issuer subject => .IssuerSubject issuer subject
  | .Opaque id => .Opaque id
  | .PhoneNumber phone_number => .PhoneNumber phone_number
  | .DID url => .Did url
  | .URI uri => .Uri uri

end Lib

/-- Modelled from the spec: the composite Subject Identifier union of
section 4.3, `SubjectId = Atomic | Aliases`, whose definition is referenced
by `src/single.rs` but is not among the given sources.  The Aliases case
wraps an ordered sequence of Atomic identifiers. -/
inductive SubjectId where
  | atomic : Atomic → SubjectId
  | aliases : List Atomic → SubjectId
deriving DecidableEq

/-- Decode a JSON array's elements as Atomic identifiers, in order, failing
on the first element that is not a valid Atomic wire object. -/
def decodeAtomicList : List Json → Except String (List Atomic)
  | [] => .ok []
  | j :: rest => do
      let a ← Atomic.deserialize j
      let tail ← decodeAtomicList rest
      pure (a :: tail)

/-- Modelled from the spec: the Aliases wire shape of sections 4.3 and 6 —
an object whose `"format"` discriminator is `"aliases"` and whose
`identifiers` member holds a non-empty array, each entry a valid Atomic wire
object. -/
def decodeAliases (j : Json) : Except String (List Atomic) :=
  match j with
  | .obj fields => do
    let tag ← Json.extractTag "format" fields
    if tag = SubjectId.FORMAT_ALIASES then
      let content := Json.contentOf "format" fields
      match Json.fieldValues "identifiers" content with
      | [] => .error "missing field identifiers"
      | [Json.arr items] => do
          let ids ← decodeAtomicList items
          match ids with
          | [] => .error "identifiers must contain at least one entry"
          | _ :: _ => pure ids
      | [_] => .error "invalid type: expected an array of identifiers"
      | _ :: _ :: _ => .error "duplicate field identifiers"
    else .error ("unknown variant " ++ tag)
  | _ => .error "invalid type: expected a map"

/-- Modelled from the spec: the section 4.3 decode algorithm for the
composite `SubjectId` — structural trial with no outer discriminator: first
attempt the Atomic union; on failure attempt the Aliases shape; if neither
matches, fail with a single taxonomy error. -/
def SubjectId.deserialize (j : Json) : Except String SubjectId :=
  match Atomic.deserialize j with
  | .ok a => .ok (.atomic a)
  | .error _ =>
    match decodeAliases j with
    | .ok ids => .ok (.aliases ids)
    | .error _ => .error "object matches no known Subject Identifier shape"

/-- The declared fields of each `Atomic` variant, as name/value wire members
in declaration order (the section 3 registry table). -/
def Atomic.declaredFields : Atomic → List (String × Json)
  | .Account uri => [("uri", .str uri)]
  | .Email email => [("email", .str email)]
  | .IssuerSubject issuer subject =>
      [("issuer", .str issuer), ("subject", .str subject)]
  | .Opaque id => [("id", .str id)]
  | .PhoneNumber phone_number => [("phone_number", .str phone_number)]
  | .Did url => [("url", .str url)]
  | .Uri uri => [("uri", .str uri)]

/-- The registry of the seven atomic format names (section 3 table). -/
def atomicFormatNames : List String :=
  ["account", "email", "iss_sub", "opaque", "phone_number", "did", "uri"]

/-- The required field names of each registered atomic format (the section 3
registry table); `none` for a name outside the registry. -/
def requiredFieldNames : String → Option (List String)
  | "account" => some ["uri"]
  | "email" => some ["email"]
  | "iss_sub" => some ["issuer", "subject"]
  | "opaque" => some ["id"]
  | "phone_number" => some ["phone_number"]
  | "did" => some ["url"]
  | "uri" => some ["uri"]
  | _ => none

/-! ## Helper lemmas on the wire model -/

theorem Json.getStr_ok_iff (v : Json) (s : String) :
    v.getStr = .ok s ↔ v = .str s := by
  cases v <;> simp [Json.getStr]

theorem Json.fieldValues_nil (k : String) : Json.fieldValues k [] = [] := rfl

theorem Json.fieldValues_cons (k k' : String) (v : Json)
    (fs : List (String × Json)) :
    Json.fieldValues k ((k', v) :: fs) =
      if k' = k then v :: Json.fieldValues k fs else Json.fieldValues k fs := by
  by_cases h : k' = k
  · simp [Json.fieldValues, List.filter_cons, h]
  · simp [Json.fieldValues, List.filter_cons, h]

theorem Json.fieldValues_append (k : String) (xs ys : List (String × Json)) :
    Json.fieldValues k (xs ++ ys) =
      Json.fieldValues k xs ++ Json.fieldValues k ys := by
  simp [Json.fieldValues, List.filter_append]

theorem Json.contentOf_cons (t k : String) (v : Json) (fs : List (String × Json)) :
    Json.contentOf t ((k, v) :: fs) =
      if k = t then Json.contentOf t fs else (k, v) :: Json.contentOf t fs := by
  by_cases h : k = t
  · simp [Json.contentOf, List.filter_cons, h]
  · simp [Json.contentOf, List.filter_cons, h]

theorem Json.contentOf_append (t : String) (xs ys : List (String × Json)) :
    Json.contentOf t (xs ++ ys) = Json.contentOf t xs ++ Json.contentOf t ys := by
  simp [Json.contentOf, List.filter_append]

theorem Json.fieldValues_contentOf (k t : String) (h : ¬ k = t)
    (fs : List (String × Json)) :
    Json.fieldValues k (Json.contentOf t fs) = Json.fieldValues k fs := by
  induction fs with
  | nil => rfl
  | cons kv rest ih =>
      obtain ⟨k', v⟩ := kv
      by_cases hk : k' = t
      · subst hk
        have hne : ¬ k' = k := fun hh => h hh.symm
        simp [Json.contentOf_cons, Json.fieldValues_cons, hne, ih]
      · simp [Json.contentOf_cons, Json.fieldValues_cons, hk, ih]

theorem Json.reqStrField_ok_iff (k : String) (fs : List (String × Json))
    (s : String) :
    Json.reqStrField k fs = .ok s ↔ Json.fieldValues k fs = [Json.str s] := by
  rcases h : Json.fieldValues k fs with _ | ⟨v, _ | ⟨w, rest⟩⟩
  · simp [Json.reqStrField, h]
  · simp [Json.reqStrField, h, Json.getStr_ok_iff]
  · simp [Json.reqStrField, h]

theorem Json.extractTag_ok_iff (k : String) (fs : List (String × Json))
    (s : String) :
    Json.extractTag k fs = .ok s ↔ Json.fieldValues k fs = [Json.str s] := by
  rcases h : Json.fieldValues k fs with _ | ⟨v, _ | ⟨w, rest⟩⟩
  · simp [Json.extractTag, h]
  · simp [Json.extractTag, h, Json.getStr_ok_iff]
  · simp [Json.extractTag, h]

theorem Atomic.format_of_variant (a : Atomic) :
    requiredFieldNames a.format = some (a.declaredFields.map Prod.fst) := by
  cases a <;> rfl

theorem Atomic.deserialize_obj_ok_iff (fields : List (String × Json)) (a : Atomic) :
    Atomic.deserialize (Json.obj fields) = .ok a ↔
      Json.fieldValues "format" fields = [Json.str a.format] ∧
      ∀ kv ∈ a.declaredFields,
        Json.fieldValues kv.1 (Json.contentOf "format" fields) = [kv.2] := by
  constructor
  · intro h
    simp only [Atomic.deserialize, bind, Except.bind, pure, Except.pure] at h
    split at h
    · exact absurd h (by simp)
    next t htag =>
      rw [Json.extractTag_ok_iff] at htag
      split at h
      all_goals first
        | · split at h
            · exact absurd h (by simp)
            next s hf =>
              rw [Json.reqStrField_ok_iff] at hf
              cases h
              exact ⟨htag, by simpa [Atomic.declaredFields] using hf⟩
        | · split at h
            · exact absurd h (by simp)
            next s hf =>
              split at h
              · exact absurd h (by simp)
              next s2 hf2 =>
                rw [Json.reqStrField_ok_iff] at hf
                rw [Json.reqStrField_ok_iff] at hf2
                cases h
                refine ⟨htag, ?_⟩
                intro kv hkv
                simp [Atomic.declaredFields] at hkv
                rcases hkv with h1 | h2
                · subst h1; exact hf
                · subst h2; exact hf2
        | exact absurd h (by simp)
  · rintro ⟨hfmt, hflds⟩
    have htag : Json.extractTag "format" fields = .ok a.format :=
      (Json.extractTag_ok_iff _ _ _).mpr hfmt
    cases a with
    | Account uri =>
        have h1 : Json.reqStrField "uri" (Json.contentOf "format" fields) = .ok uri :=
          (Json.reqStrField_ok_iff _ _ _).mpr
            (hflds ("uri", Json.str uri) (by simp [Atomic.declaredFields]))
        simp [Atomic.deserialize, bind, Except.bind, htag, h1, Atomic.format,
          SubjectId.FORMAT_ACCOUNT, pure, Except.pure]
    | Email email =>
        have h1 : Json.reqStrField "email" (Json.contentOf "format" fields) = .ok email :=
          (Json.reqStrField_ok_iff _ _ _).mpr
            (hflds ("email", Json.str email) (by simp [Atomic.declaredFields]))
        simp [Atomic.deserialize, bind, Except.bind, htag, h1, Atomic.format,
          SubjectId.FORMAT_EMAIL, pure, Except.pure]
    | IssuerSubject issuer subject =>
        have h1 : Json.reqStrField "issuer" (Json.contentOf "format" fields) = .ok issuer :=
          (Json.reqStrField_ok_iff _ _ _).mpr
            (hflds ("issuer", Json.str issuer) (by simp [Atomic.declaredFields]))
        have h2 : Json.reqStrField "subject" (Json.contentOf "format" fields) = .ok subject :=
          (Json.reqStrField_ok_iff _ _ _).mpr
            (hflds ("subject", Json.str subject) (by simp [Atomic.declaredFields]))
        simp [Atomic.deserialize, bind, Except.bind, htag, h1, h2, Atomic.format,
          SubjectId.FORMAT_ISSUER_SUBJECT, pure, Except.pure]
    | Opaque id =>
        have h1 : Json.reqStrField "id" (Json.contentOf "format" fields) = .ok id :=
          (Json.reqStrField_ok_iff _ _ _).mpr
            (hflds ("id", Json.str id) (by simp [Atomic.declaredFields]))
        simp [Atomic.deserialize, bind, Except.bind, htag, h1, Atomic.format,
          SubjectId.FORMAT_OPAQUE, pure, Except.pure]
    | PhoneNumber phone_number =>
        have h1 : Json.reqStrField "phone_number" (Json.contentOf "format" fields)
            = .ok phone_number :=
          (Json.reqStrField_ok_iff _ _ _).mpr
            (hflds ("phone_number", Json.str phone_number)
              (by simp [Atomic.declaredFields]))
        simp [Atomic.deserialize, bind, Except.bind, htag, h1, Atomic.format,
          SubjectId.FORMAT_PHONE_NUMBER, pure, Except.pure]
    | Did url =>
        have h1 : Json.reqStrField "url" (Json.contentOf "format" fields) = .ok url :=
          (Json.reqStrField_ok_iff _ _ _).mpr
            (hflds ("url", Json.str url) (by simp [Atomic.declaredFields]))
        simp [Atomic.deserialize, bind, Except.bind, htag, h1, Atomic.format,
          SubjectId.FORMAT_DID, pure, Except.pure]
    | Uri uri =>
        have h1 : Json.reqStrField "uri" (Json.contentOf "format" fields) = .ok uri :=
          (Json.reqStrField_ok_iff _ _ _).mpr
            (hflds ("uri", Json.str uri) (by simp [Atomic.declaredFields]))
        simp [Atomic.deserialize, bind, Except.bind, htag, h1, Atomic.format,
          SubjectId.FORMAT_URI, pure, Except.pure]

theorem Atomic.deserialize_missing_tag (fields : List (String × Json))
    (h : Json.fieldValues "format" fields = []) :
    Atomic.deserialize (Json.obj fields) = .error "missing field format" := by
  simp [Atomic.deserialize, bind, Except.bind, Json.extractTag, h]

theorem Atomic.deserialize_unknown_tag (fields : List (String × Json)) (t : String)
    (htag : Json.extractTag "format" fields = .ok t) (hne : t ∉ atomicFormatNames) :
    Atomic.deserialize (Json.obj fields) = .error ("unknown variant " ++ t) := by
  simp only [atomicFormatNames, List.mem_cons, List.not_mem_nil, or_false,
    not_or] at hne
  obtain ⟨h1, h2, h3, h4, h5, h6, h7⟩ := hne
  simp [Atomic.deserialize, bind, Except.bind, htag, h1, h2, h3, h4, h5, h6, h7]

/-- C1: every Atomic value serializes to an object whose `"format"` member is
the variant's snake_case registry name with the declared fields flattened
beside it; and a valid Atomic wire object decodes to a value whose re-encoding
is semantically identical to it: the original object carried the same
discriminator value and the same declared field values, and the re-encoded
object decodes back to the same value. -/
theorem Atomic.wire_encoding_roundtrip (a : Atomic) (fields : List (String × Json))
    (h : Atomic.deserialize (Json.obj fields) = .ok a) :
    Atomic.serialize a =
      Json.obj (("format", Json.str a.format) :: a.declaredFields)
    ∧ Json.fieldValues "format" fields = [Json.str a.format]
    ∧ (∀ kv ∈ a.declaredFields,
        Json.fieldValues kv.1 (Json.contentOf "format" fields) = [kv.2])
    ∧ Atomic.deserialize a.serialize = .ok a := by
  obtain ⟨hfmt, hflds⟩ := (Atomic.deserialize_obj_ok_iff fields a).mp h
  refine ⟨by cases a <;> rfl, hfmt, hflds, ?_⟩
  cases a <;> rfl

theorem Atomic.wire_encoding_roundtrip_witness :
    Atomic.deserialize (Atomic.serialize (Atomic.Email "user@example.com")) =
      .ok (Atomic.Email "user@example.com") :=
  (Atomic.wire_encoding_roundtrip (Atomic.Email "user@example.com")
      [("format", Json.str "email"), ("email", Json.str "user@example.com")]
      (by rfl)).2.2.2

/-- C3: Atomic decoding fails whenever the wire object lacks the `"format"`
member or its `"format"` member names a format outside the seven-name
registry; in particular `{"format":"ssn","value":"123-45-6789"}` is
rejected. -/
theorem Atomic.decode_unknown_or_missing_format (fields : List (String × Json)) :
    (Json.fieldValues "format" fields = [] →
      Atomic.deserialize (Json.obj fields) = .error "missing field format")
    ∧ (∀ t, Json.extractTag "format" fields = .ok t → t ∉ atomicFormatNames →
        Atomic.deserialize (Json.obj fields) = .error ("unknown variant " ++ t))
    ∧ Atomic.deserialize (Json.obj [("format", Json.str "ssn"),
        ("value", Json.str "123-45-6789")]) = .error "unknown variant ssn" :=
  ⟨Atomic.deserialize_missing_tag fields,
   fun t htag hne => Atomic.deserialize_unknown_tag fields t htag hne,
   by rfl⟩

theorem Atomic.decode_unknown_or_missing_format_witness :
    Atomic.deserialize (Json.obj [("value", Json.str "123-45-6789")]) =
      .error "missing field format" :=
  (Atomic.decode_unknown_or_missing_format [("value", Json.str "123-45-6789")]).1
    (by rfl)

/-- C5: `format()` is total over the seven Atomic variants, pure (it is a
function of the value alone), and returns exactly the registry name of the
populated variant. -/
theorem Atomic.format_total (uri email issuer subject id phone_number url uri' :
    String) :
    (Atomic.Account uri).format = "account"
    ∧ (Atomic.Email email).format = "email"
    ∧ (Atomic.IssuerSubject issuer subject).format = "iss_sub"
    ∧ (Atomic.Opaque id).format = "opaque"
    ∧ (Atomic.PhoneNumber phone_number).format = "phone_number"
    ∧ (Atomic.Did url).format = "did"
    ∧ (Atomic.Uri uri').format = "uri"
    ∧ ∀ a : Atomic, a.format ∈ atomicFormatNames := by
  refine ⟨rfl, rfl, rfl, rfl, rfl, rfl, rfl, ?_⟩
  intro a
  cases a <;> simp [Atomic.format, atomicFormatNames, SubjectId.FORMAT_ACCOUNT,
    SubjectId.FORMAT_EMAIL, SubjectId.FORMAT_ISSUER_SUBJECT,
    SubjectId.FORMAT_OPAQUE, SubjectId.FORMAT_PHONE_NUMBER,
    SubjectId.FORMAT_DID, SubjectId.FORMAT_URI]

/-- C9: Atomic decoding does not reject empty-string field values: every
wire object whose `"format"` names a registered format and which carries
each of that format's required fields exactly once with a string value —
any string values at all, the empty string included — decodes successfully;
in particular `{"format":"email","email":""}` (and an empty account `uri`)
decode successfully. -/
theorem Atomic.decode_accepts_empty_strings (t : String) (flds : List String)
    (content : List (String × Json)) (ht : requiredFieldNames t = some flds)
    (hfmt : Json.fieldValues "format" content = [])
    (hpresent : ∀ k ∈ flds, ∃ s, Json.fieldValues k content = [Json.str s]) :
    (∃ a, Atomic.deserialize (Json.obj (("format", Json.str t) :: content)) =
      .ok a)
    ∧ Atomic.deserialize (Json.obj [("format", Json.str "email"),
      ("email", Json.str "")]) = .ok (.Email "")
    ∧ Atomic.deserialize (Json.obj [("format", Json.str "account"),
      ("uri", Json.str "")]) = .ok (.Account "") := by
  refine ⟨?_, by rfl, by rfl⟩
  have hC0 : Json.contentOf "format" (("format", Json.str t) :: content)
      = Json.contentOf "format" content := by
    rw [Json.contentOf_cons, if_pos rfl]
  have hfmt1 : Json.fieldValues "format" (("format", Json.str t) :: content)
      = [Json.str t] := by
    rw [Json.fieldValues_cons, if_pos rfl, hfmt]
  unfold requiredFieldNames at ht
  split at ht
  · injection ht with hflds
    subst hflds
    obtain ⟨s, hs⟩ := hpresent "uri" (by simp)
    refine ⟨.Account s, (Atomic.deserialize_obj_ok_iff _ _).mpr
      ⟨by rw [hfmt1]; exact rfl, ?_⟩⟩
    rintro ⟨k1, v1⟩ hkv
    simp only [Atomic.declaredFields, List.mem_singleton, Prod.mk.injEq] at hkv
    obtain ⟨hk1, hv1⟩ := hkv
    subst hk1
    subst hv1
    dsimp only
    rw [hC0, Json.fieldValues_contentOf _ _ (by decide), hs]
  · injection ht with hflds
    subst hflds
    obtain ⟨s, hs⟩ := hpresent "email" (by simp)
    refine ⟨.Email s, (Atomic.deserialize_obj_ok_iff _ _).mpr
      ⟨by rw [hfmt1]; exact rfl, ?_⟩⟩
    rintro ⟨k1, v1⟩ hkv
    simp only [Atomic.declaredFields, List.mem_singleton, Prod.mk.injEq] at hkv
    obtain ⟨hk1, hv1⟩ := hkv
    subst hk1
    subst hv1
    dsimp only
    rw [hC0, Json.fieldValues_contentOf _ _ (by decide), hs]
  · injection ht with hflds
    subst hflds
    obtain ⟨s1, hs1⟩ := hpresent "issuer" (by simp)
    obtain ⟨s2, hs2⟩ := hpresent "subject" (by simp)
    refine ⟨.IssuerSubject s1 s2, (Atomic.deserialize_obj_ok_iff _ _).mpr
      ⟨by rw [hfmt1]; exact rfl, ?_⟩⟩
    rintro ⟨k1, v1⟩ hkv
    simp only [Atomic.declaredFields, List.mem_cons, List.not_mem_nil,
      or_false, Prod.mk.injEq] at hkv
    rcases hkv with ⟨hk1, hv1⟩ | ⟨hk1, hv1⟩ <;> subst hk1 <;> subst hv1 <;>
      dsimp only
    · rw [hC0, Json.fieldValues_contentOf _ _ (by decide), hs1]
    · rw [hC0, Json.fieldValues_contentOf _ _ (by decide), hs2]
  · injection ht with hflds
    subst hflds
    obtain ⟨s, hs⟩ := hpresent "id" (by simp)
    refine ⟨.Opaque s, (Atomic.deserialize_obj_ok_iff _ _).mpr
      ⟨by rw [hfmt1]; exact rfl, ?_⟩⟩
    rintro ⟨k1, v1⟩ hkv
    simp only [Atomic.declaredFields, List.mem_singleton, Prod.mk.injEq] at hkv
    obtain ⟨hk1, hv1⟩ := hkv
    subst hk1
    subst hv1
    dsimp only
    rw [hC0, Json.fieldValues_contentOf _ _ (by decide), hs]
  · injection ht with hflds
    subst hflds
    obtain ⟨s, hs⟩ := hpresent "phone_number" (by simp)
    refine ⟨.PhoneNumber s, (Atomic.deserialize_obj_ok_iff _ _).mpr
      ⟨by rw [hfmt1]; exact rfl, ?_⟩⟩
    rintro ⟨k1, v1⟩ hkv
    simp only [Atomic.declaredFields, List.mem_singleton, Prod.mk.injEq] at hkv
    obtain ⟨hk1, hv1⟩ := hkv
    subst hk1
    subst hv1
    dsimp only
    rw [hC0, Json.fieldValues_contentOf _ _ (by decide), hs]
  · injection ht with hflds
    subst hflds
    obtain ⟨s, hs⟩ := hpresent "url" (by simp)
    refine ⟨.Did s, (Atomic.deserialize_obj_ok_iff _ _).mpr
      ⟨by rw [hfmt1]; exact rfl, ?_⟩⟩
    rintro ⟨k1, v1⟩ hkv
    simp only [Atomic.declaredFields, List.mem_singleton, Prod.mk.injEq] at hkv
    obtain ⟨hk1, hv1⟩ := hkv
    subst hk1
    subst hv1
    dsimp only
    rw [hC0, Json.fieldValues_contentOf _ _ (by decide), hs]
  · injection ht with hflds
    subst hflds
    obtain ⟨s, hs⟩ := hpresent "uri" (by simp)
    refine ⟨.Uri s, (Atomic.deserialize_obj_ok_iff _ _).mpr
      ⟨by rw [hfmt1]; exact rfl, ?_⟩⟩
    rintro ⟨k1, v1⟩ hkv
    simp only [Atomic.declaredFields, List.mem_singleton, Prod.mk.injEq] at hkv
    obtain ⟨hk1, hv1⟩ := hkv
    subst hk1
    subst hv1
    dsimp only
    rw [hC0, Json.fieldValues_contentOf _ _ (by decide), hs]
  · exact Option.noConfusion ht

theorem Atomic.decode_accepts_empty_strings_witness :
    ∃ a, Atomic.deserialize (Json.obj [("format", Json.str "email"),
      ("email", Json.str "")]) = .ok a :=
  (Atomic.decode_accepts_empty_strings "email" ["email"]
    [("email", Json.str "")] (by rfl) (by rfl)
    (by
      intro k hk
      simp only [List.mem_singleton] at hk
      subst hk
      exact ⟨"", by rfl⟩)).1

theorem PhoneNumber.parse_eq (s : String) :
    PhoneNumber.parse s =
      if digitRun (stripPlus s.data) then
        .ok ⟨String.mk ('+' :: stripPlus s.data)⟩
      else .error Error.InvalidPhoneNumber := rfl

theorem stripPlus_cons_ne (c : Char) (rest : List Char) (h : ¬ (c = '+')) :
    stripPlus (c :: rest) = c :: rest := by
  simp [stripPlus, h]

theorem digitRun_grammar (cs : List Char) :
    digitRun (stripPlus cs) = true ↔
      ∃ ds, (cs = ds ∨ cs = '+' :: ds) ∧ 1 ≤ ds.length ∧ ds.length ≤ 15
        ∧ ds.all isNd := by
  constructor
  · intro h
    cases cs with
    | nil => simp [stripPlus, digitRun] at h
    | cons c rest =>
        by_cases hc : c = '+'
        · subst hc
          have h' : digitRun rest = true := by simpa [stripPlus] using h
          have h'' := h'
          simp only [digitRun, Bool.and_eq_true, decide_eq_true_eq] at h''
          exact ⟨rest, Or.inr rfl, h''.1.1, h''.1.2, h''.2⟩
        · have h' : digitRun (c :: rest) = true := by
            simpa [stripPlus_cons_ne c rest hc] using h
          have h'' := h'
          simp only [digitRun, Bool.and_eq_true, decide_eq_true_eq] at h''
          exact ⟨c :: rest, Or.inl rfl, h''.1.1, h''.1.2, h''.2⟩
  · rintro ⟨ds, hds | hds, hlen1, hlen15, hdig⟩
    · subst hds
      cases cs with
      | nil => simp at hlen1
      | cons d rest =>
          have hd : isNd d = true := by
            simp only [List.all_eq_true] at hdig
            exact hdig d (by simp)
          have hne : ¬ (d = '+') := by
            intro hdd
            subst hdd
            exact absurd hd (by decide)
          rw [stripPlus_cons_ne d rest hne]
          simp only [digitRun, Bool.and_eq_true, decide_eq_true_eq]
          exact ⟨⟨hlen1, hlen15⟩, hdig⟩
    · subst hds
      have : stripPlus ('+' :: ds) = ds := by simp [stripPlus]
      rw [this]
      simp only [digitRun, Bool.and_eq_true, decide_eq_true_eq]
      exact ⟨⟨hlen1, hlen15⟩, hdig⟩

/-- C6: `PhoneNumber` construction succeeds exactly when the input matches
`^\+?(\d{1,15})$` (optional leading `+`, then 1 to 15 decimal digits —
`\d` being the Unicode Nd class the `regex` crate matches by default —
nothing else), and otherwise fails with `Error::InvalidPhoneNumber`; the
boundary inputs `""`, `"abc"`, sixteen digits and `"+"` are rejected, while
`"12065550100"` and `"+12065550100"` both produce the identical canonical
value `+12065550100` (and a Unicode-digit input such as Arabic-Indic
`"٥٥٥"` is likewise accepted). -/
theorem PhoneNumber.parse_grammar (s : String) :
    ((∃ p, PhoneNumber.parse s = .ok p) ↔
      ∃ ds, (s.data = ds ∨ s.data = '+' :: ds) ∧ 1 ≤ ds.length ∧ ds.length ≤ 15
        ∧ ds.all isNd)
    ∧ ((¬ ∃ ds, (s.data = ds ∨ s.data = '+' :: ds) ∧ 1 ≤ ds.length
        ∧ ds.length ≤ 15 ∧ ds.all isNd) →
        PhoneNumber.parse s = .error Error.InvalidPhoneNumber)
    ∧ PhoneNumber.parse "" = .error Error.InvalidPhoneNumber
    ∧ PhoneNumber.parse "abc" = .error Error.InvalidPhoneNumber
    ∧ PhoneNumber.parse "0000000000000000" = .error Error.InvalidPhoneNumber
    ∧ PhoneNumber.parse "+" = .error Error.InvalidPhoneNumber
    ∧ PhoneNumber.parse "12065550100" = .ok ⟨"+12065550100"⟩
    ∧ PhoneNumber.parse "+12065550100" = .ok ⟨"+12065550100"⟩
    ∧ PhoneNumber.parse "٥٥٥" = .ok ⟨"+٥٥٥"⟩ := by
  refine ⟨?_, ?_, by rfl, by rfl, by rfl, by rfl, by rfl, by rfl, by rfl⟩
  · rw [← digitRun_grammar]
    constructor
    · rintro ⟨p, hp⟩
      rw [PhoneNumber.parse_eq] at hp
      by_cases h : digitRun (stripPlus s.data)
      · exact h
      · simp [h] at hp
    · intro h
      exact ⟨⟨String.mk ('+' :: stripPlus s.data)⟩,
        by rw [PhoneNumber.parse_eq]; simp [h]⟩
  · intro hng
    rw [← digitRun_grammar] at hng
    have h : digitRun (stripPlus s.data) = false := by
      cases hdr : digitRun (stripPlus s.data)
      · rfl
      · exact absurd hdr hng
    rw [PhoneNumber.parse_eq]
    simp [h]

theorem PhoneNumber.parse_grammar_witness :
    PhoneNumber.parse "12065550100" = .ok ⟨"+12065550100"⟩ :=
  (PhoneNumber.parse_grammar "12065550100").2.2.2.2.2.2.1

/-- C7: for every accepted input `s`, formatting the parsed value yields
`"+"` followed by the digits of `s` (whether or not `s` carried a leading
`+`), and parsing the formatted string again yields a value equal to the
original parse result. -/
theorem PhoneNumber.parse_format_roundtrip (s : String) (p : PhoneNumber)
    (h : PhoneNumber.parse s = .ok p) :
    p.toString = "+" ++ String.mk (stripPlus s.data)
    ∧ PhoneNumber.parse p.toString = .ok p := by
  rw [PhoneNumber.parse_eq] at h
  by_cases hb : digitRun (stripPlus s.data)
  · rw [if_pos hb] at h
    have hp : p = ⟨String.mk ('+' :: stripPlus s.data)⟩ := by
      cases h
      rfl
    subst hp
    refine ⟨rfl, ?_⟩
    rw [PhoneNumber.parse_eq]
    have hdata : (PhoneNumber.toString ⟨String.mk ('+' :: stripPlus s.data)⟩).data
        = '+' :: stripPlus s.data := rfl
    rw [hdata]
    have hstrip : stripPlus ('+' :: stripPlus s.data) = stripPlus s.data := by
      simp [stripPlus]
    rw [hstrip, if_pos hb]
  · rw [if_neg hb] at h
    exact absurd h (by simp)

theorem PhoneNumber.parse_format_roundtrip_witness :
    PhoneNumber.toString ⟨"+12065550100"⟩ =
      "+" ++ String.mk (stripPlus "12065550100".data)
    ∧ PhoneNumber.parse (PhoneNumber.toString ⟨"+12065550100"⟩) =
      .ok ⟨"+12065550100"⟩ :=
  PhoneNumber.parse_format_roundtrip "12065550100" ⟨"+12065550100"⟩ (by rfl)

/-- C8: deserializing a `PhoneNumber` from a wire string succeeds exactly
when `parse` succeeds on that string, yields the same value, and surfaces
the invalid-phone-number error message on failure; serialization writes the
canonical form as a plain string, with no wrapping object. -/
theorem PhoneNumber.deserialize_matches_parse (s : String) (p : PhoneNumber) :
    (PhoneNumber.deserialize (Json.str s) = .ok p ↔ PhoneNumber.parse s = .ok p)
    ∧ (PhoneNumber.parse s = .error Error.InvalidPhoneNumber →
        PhoneNumber.deserialize (Json.str s) =
          .error Error.InvalidPhoneNumber.message)
    ∧ PhoneNumber.serialize p = Json.str p.number := by
  refine ⟨?_, ?_, rfl⟩
  · rcases hp : PhoneNumber.parse s with e | q
    · simp [PhoneNumber.deserialize, hp]
    · simp [PhoneNumber.deserialize, hp]
  · intro hp
    simp [PhoneNumber.deserialize, hp]

theorem PhoneNumber.deserialize_matches_parse_witness :
    PhoneNumber.deserialize (Json.str "abc") =
      .error Error.InvalidPhoneNumber.message :=
  (PhoneNumber.deserialize_matches_parse "abc" ⟨"+1"⟩).2.1 (by rfl)

theorem requiredFieldNames_no_format (t : String) (flds : List String)
    (ht : requiredFieldNames t = some flds) : "format" ∉ flds := by
  unfold requiredFieldNames at ht
  split at ht <;>
    first
      | exact Option.noConfusion ht
      | (injection ht with h2; subst h2; decide)

/-- C4 counterexample: a wire object whose `"format"` names a known format
and whose required fields are present decodes successfully even though it
carries a member foreign to that format — the foreign member is ignored, so
the claim that such an object must fail to decode is false. -/
theorem Atomic.decode_foreign_field_accepted_cex :
    Atomic.deserialize (Json.obj [("format", Json.str "email"),
      ("email", Json.str "user@example.com"), ("ssn", Json.str "123-45-6789")]) =
      .ok (.Email "user@example.com") := by rfl

/-- C4 amended: decoding with a recognized `"format"` fails with a decode
error whenever a required field of that format is missing; a member whose
name is foreign to the format is ignored rather than rejected — appending it
to the object preserves successful decoding with the same value. -/
theorem Atomic.decode_field_validation (t : String) (flds : List String)
    (content : List (String × Json)) (ht : requiredFieldNames t = some flds) :
    ((∃ k, k ∈ flds ∧ Json.fieldValues k content = []) →
      ∃ e, Atomic.deserialize (Json.obj (("format", Json.str t) :: content)) =
        .error e)
    ∧ (∀ k v a, k ∉ flds → ¬ (k = "format") →
        Atomic.deserialize (Json.obj (("format", Json.str t) :: content)) = .ok a →
        Atomic.deserialize
          (Json.obj (("format", Json.str t) :: (content ++ [(k, v)]))) = .ok a) := by
  have hC0 : Json.contentOf "format" (("format", Json.str t) :: content)
      = Json.contentOf "format" content := by
    rw [Json.contentOf_cons, if_pos rfl]
  constructor
  · rintro ⟨k, hk, hmiss⟩
    rcases hd : Atomic.deserialize (Json.obj (("format", Json.str t) :: content))
      with e | b
    · exact ⟨e, rfl⟩
    · exfalso
      obtain ⟨hfmt, hflds⟩ := (Atomic.deserialize_obj_ok_iff _ b).mp hd
      rw [Json.fieldValues_cons, if_pos rfl, List.cons_eq_cons] at hfmt
      obtain ⟨hstr, hrest⟩ := hfmt
      have hts : t = b.format := by injection hstr
      have hflds_eq : flds = b.declaredFields.map Prod.fst := by
        have h1 := Atomic.format_of_variant b
        rw [← hts, ht, Option.some_inj] at h1
        exact h1
      obtain ⟨kv, hkvmem, hkv1⟩ := List.mem_map.mp (hflds_eq ▸ hk)
      have hkfmt : ¬ (k = "format") := by
        intro he
        exact requiredFieldNames_no_format t flds ht (he ▸ hk)
      have := hflds kv hkvmem
      rw [hC0, hkv1, Json.fieldValues_contentOf k "format" hkfmt, hmiss] at this
      exact absurd this (by simp)
  · intro k v a hk hkfmt hok
    obtain ⟨hfmt, hflds⟩ := (Atomic.deserialize_obj_ok_iff _ a).mp hok
    rw [Json.fieldValues_cons, if_pos rfl, List.cons_eq_cons] at hfmt
    obtain ⟨hstr, hrest⟩ := hfmt
    have hts : t = a.format := by injection hstr
    have hflds_eq : flds = a.declaredFields.map Prod.fst := by
      have h1 := Atomic.format_of_variant a
      rw [← hts, ht, Option.some_inj] at h1
      exact h1
    apply (Atomic.deserialize_obj_ok_iff _ a).mpr
    have hkv_nil : Json.fieldValues "format" [(k, v)] = [] := by
      rw [Json.fieldValues_cons]
      simp [hkfmt, Json.fieldValues_nil]
    constructor
    · rw [Json.fieldValues_cons, if_pos rfl, Json.fieldValues_append, hrest,
        hkv_nil, hstr]
      rfl
    · intro kv hkvmem
      have hC : Json.contentOf "format" (("format", Json.str t) :: (content ++ [(k, v)]))
          = Json.contentOf "format" content ++ [(k, v)] := by
        rw [Json.contentOf_cons, if_pos rfl, Json.contentOf_append]
        congr 1
        rw [Json.contentOf_cons]
        simp [hkfmt, Json.contentOf]
      have hkne : ¬ (k = kv.1) := by
        intro he
        apply hk
        rw [hflds_eq]
        exact he ▸ List.mem_map.mpr ⟨kv, hkvmem, rfl⟩
      have hkv_nil2 : Json.fieldValues kv.1 [(k, v)] = [] := by
        rw [Json.fieldValues_cons]
        simp [hkne, Json.fieldValues_nil]
      rw [hC, Json.fieldValues_append, hkv_nil2]
      have := hflds kv hkvmem
      rw [hC0] at this
      rw [this]
      simp

theorem Atomic.decode_field_validation_witness :
    ∃ e, Atomic.deserialize (Json.obj [("format", Json.str "email")]) = .error e :=
  (Atomic.decode_field_validation "email" ["email"] [] (by rfl)).1
    ⟨"email", by simp, by rfl⟩

theorem decodeAtomicList_mem_error (items : List Json) (rest : List (String × Json))
    (hmem : Json.obj rest ∈ items)
    (htag : Json.extractTag "format" rest = .ok "aliases") :
    ∃ e, decodeAtomicList items = .error e := by
  induction items with
  | nil => simp at hmem
  | cons j tl ih =>
      rcases List.mem_cons.mp hmem with hj | hj
      · subst hj
        have herr : Atomic.deserialize (Json.obj rest) =
            .error "unknown variant aliases" :=
          Atomic.deserialize_unknown_tag rest "aliases" htag (by decide)
        exact ⟨"unknown variant aliases",
          by simp [decodeAtomicList, bind, Except.bind, herr]⟩
      · rcases hd : Atomic.deserialize j with e | a
        · exact ⟨e, by simp [decodeAtomicList, bind, Except.bind, hd]⟩
        · obtain ⟨e, he⟩ := ih hj
          exact ⟨e, by simp [decodeAtomicList, bind, Except.bind, hd, he]⟩

/-- C2: composite `SubjectId` decoding tries the Atomic union first and, on
success, yields the Atomic case; otherwise it tries the Aliases shape (an
`"aliases"`-tagged object with a non-empty `identifiers` sequence of Atomic
identifiers — an entry that is itself an Aliases-tagged object makes
decoding fail); if neither interpretation succeeds it fails with a single
decode error. -/
theorem SubjectId.decode_trial_resolution (j : Json) :
    (∀ a, Atomic.deserialize j = .ok a →
      SubjectId.deserialize j = .ok (.atomic a))
    ∧ (∀ e ids, Atomic.deserialize j = .error e → decodeAliases j = .ok ids →
        SubjectId.deserialize j = .ok (.aliases ids))
    ∧ (∀ e e', Atomic.deserialize j = .error e → decodeAliases j = .error e' →
        SubjectId.deserialize j =
          .error "object matches no known Subject Identifier shape")
    ∧ (∀ flds items rest, j = Json.obj flds →
        Json.extractTag "format" flds = .ok "aliases" →
        Json.fieldValues "identifiers" (Json.contentOf "format" flds)
          = [Json.arr items] →
        Json.obj rest ∈ items →
        Json.extractTag "format" rest = .ok "aliases" →
        SubjectId.deserialize j =
          .error "object matches no known Subject Identifier shape")
    ∧ SubjectId.deserialize (Json.obj [("format", Json.str "aliases"),
        ("identifiers", Json.arr [Json.obj [("format", Json.str "aliases"),
          ("identifiers", Json.arr [])]])]) =
      .error "object matches no known Subject Identifier shape" := by
  refine ⟨?_, ?_, ?_, ?_, by rfl⟩
  · intro a h
    simp [SubjectId.deserialize, h]
  · intro e ids h h2
    simp [SubjectId.deserialize, h, h2]
  · intro e e' h h2
    simp [SubjectId.deserialize, h, h2]
  · intro flds items rest hj htagj hids hmem htagr
    subst hj
    have hAtom : Atomic.deserialize (Json.obj flds) =
        .error "unknown variant aliases" :=
      Atomic.deserialize_unknown_tag flds "aliases" htagj (by decide)
    obtain ⟨e, he⟩ := decodeAtomicList_mem_error items rest hmem htagr
    have hAl : decodeAliases (Json.obj flds) = .error e := by
      simp [decodeAliases, bind, Except.bind, htagj, SubjectId.FORMAT_ALIASES,
        hids, he]
    simp [SubjectId.deserialize, hAtom, hAl]

theorem SubjectId.decode_trial_resolution_witness :
    SubjectId.deserialize (Json.obj [("format", Json.str "opaque"),
      ("id", Json.str "abc")]) = .ok (.atomic (.Opaque "abc")) :=
  (SubjectId.decode_trial_resolution (Json.obj [("format", Json.str "opaque"),
    ("id", Json.str "abc")])).1 (.Opaque "abc") (by rfl)

/-- C10: `Id` (lib.rs) and `Atomic` (single.rs) are equivalent embeddings of
the same atomic-format union: the variant correspondence is a bijection, and
corresponding values with equal field values agree on `format()` and
serialize to identical wire objects. -/
theorem Lib.Id.equiv_atomic :
    Function.Bijective Lib.Id.toAtomic
    ∧ ∀ i : Lib.Id, i.format = (Lib.Id.toAtomic i).format
      ∧ i.serialize = (Lib.Id.toAtomic i).serialize := by
  refine ⟨⟨?_, ?_⟩, ?_⟩
  · intro i i' h
    cases i <;> cases i' <;> simp [Lib.Id.toAtomic] at h <;> simp [h]
  · intro a
    cases a with
    | Account uri => exact ⟨Lib.Id.Account uri, rfl⟩
    | Email email => exact ⟨Lib.Id.Email email, rfl⟩
    | IssuerSubject issuer subject =>
        exact ⟨Lib.Id.IssuerSubject issuer subject, rfl⟩
    | Opaque id => exact ⟨Lib.Id.Opaque id, rfl⟩
    | PhoneNumber phone_number => exact ⟨Lib.Id.PhoneNumber phone_number, rfl⟩
    | Did url => exact ⟨Lib.Id.DID url, rfl⟩
    | Uri uri => exact ⟨Lib.Id.URI uri, rfl⟩
  · intro i
    cases i <;> exact ⟨rfl, rfl⟩
